import Mathlib

/-!
Verification development for the browser security-camera client
(React component `CameraView` plus `services/geminiService.ts`).

The definitions below are a shallow embedding of the program:

* the frame differencer and motion trigger of `drawAndCompare`;
* the detection-event list and its asynchronous analysis pipeline
  (`handleMotionDetected` and the two `setEvents` updates), modelled as a
  trace of `submit`/`resolve` operations applied in program order;
* `analyzeImage` from `geminiService.ts`, with the outcome of the external
  Gemini call made explicit;
* the `CameraView` component state (`isMonitoring`, `hasCameraPermission`,
  `error`, `status`, the media stream, the scheduled animation frame,
  `lastDetectionTime`, the event list, and the pending-call queue), with the
  relevant `useEffect` bodies (`setupCamera`, `cleanupCamera`, the monitoring
  effect) as state-transition functions;
* the PeerJS inbound-call handler (`peer.on call`) together with the
  pending-call draining in `setupCamera`, with an explicit ghost log of
  answered calls.

JavaScript numbers standing for times (`Date.now()`) are embedded as `Int`
milliseconds; raster bytes as `ℕ`; streams and call objects are identified by
opaque ids (`Nat` / `String`).
-/

/-! ## Frame differencer (`drawAndCompare`, part_000 lines 268-289) -/

/-- Absolute difference of two channel values, as computed by
`Math.abs(currentData[i] - oldData[i])` on JavaScript numbers. -/
def chAbs (a b : ℕ) : ℕ := ((a : ℤ) - b).natAbs

/-- One RGBA pixel of an `ImageData` buffer. -/
structure Pixel where
  r : ℕ
  g : ℕ
  b : ℕ
  a : ℕ
deriving DecidableEq

/-- Flattening of a pixel list into the flat RGBA byte array
(`ImageData.data` layout) that `drawAndCompare` iterates over. -/
def flattenPx : List Pixel → List ℕ
  | [] => []
  | p :: ps => p.r :: p.g :: p.b :: p.a :: flattenPx ps

/-- Accumulated difference of the loop
`for (i = 0; i < currentData.length; i += 4) diff += |cur[i]-old[i]| + |cur[i+1]-old[i+1]| + |cur[i+2]-old[i+2]|`:
the alpha byte (offset 3) is skipped. -/
def frameDiff : List ℕ → List ℕ → ℕ
  | c0 :: c1 :: c2 :: _ :: r1, o0 :: o1 :: o2 :: _ :: r2 =>
      chAbs c0 o0 + chAbs c1 o1 + chAbs c2 o2 + frameDiff r1 r2
  | _, _ => 0

/-- Source constant `MOTION_SENSITIVITY = 50` (part_000 line 8). -/
def MOTION_SENSITIVITY : ℕ := 50

/-- Motion score `diff / (currentData.length / 4)` of `drawAndCompare`
(part_000 line 284), with JavaScript number division embedded in `ℚ`. -/
def score (cur old : List ℕ) : ℚ := (frameDiff cur old : ℚ) / ((cur.length : ℚ) / 4)

/-- Trigger decision `diff / (currentData.length / 4) > MOTION_SENSITIVITY`
of `drawAndCompare` (part_000 line 284). -/
def motionTriggered (cur old : List ℕ) : Bool :=
  decide ((MOTION_SENSITIVITY : ℚ) < score cur old)

/-- Modelled from the spec: per-pixel term `|R1-R2| + |G1-G2| + |B1-B2|` of the
Frame Differencer contract (spec section 4.1); alpha excluded. -/
def pixelDelta (p q : Pixel) : ℕ := chAbs p.r q.r + chAbs p.g q.g + chAbs p.b q.b

/-- Modelled from the spec: the sum over all pixels of
`|R1-R2| + |G1-G2| + |B1-B2|` (spec section 4.1). -/
def sumDeltas : List Pixel → List Pixel → ℕ
  | p :: ps, q :: qs => pixelDelta p q + sumDeltas ps qs
  | _, _ => 0

/-- Modelled from the spec: the Frame Differencer contract
`score = (Σ over all pixels of |R1-R2| + |G1-G2| + |B1-B2|) / pixelCount`
(spec section 4.1), used as the specification side of claim C2. -/
def specScore (ps qs : List Pixel) : ℚ := (sumDeltas ps qs : ℚ) / (ps.length : ℚ)

/-- Sum of the R, G and B channels of a frame; this is what `frameDiff`
computes against an all-zero (freshly created, never drawn-to) canvas. -/
def sumRGB : List Pixel → ℕ
  | [] => 0
  | p :: ps => p.r + p.g + p.b + sumRGB ps

/-! ## Detection events and the analysis pipeline
(`handleMotionDetected`, part_000 lines 249-266; `types.ts`) -/

/-- The `DetectionEvent` record of `types.ts`; `timestamp` is embedded as the
`Date.now()` millisecond value, `id` is its decimal string (`now.toString()`). -/
structure DetectionEvent where
  id : String
  timestamp : Int
  imageDataUrl : String
  analysis : Option String
  isAnalyzing : Bool
deriving DecidableEq

/-- One atomic event-list update of the pipeline, in the order the
single-threaded host executes them: `submit` is the synchronous
`setEvents(prev => [newEvent, ...prev])` of `handleMotionDetected`
(line 255); `resolve` is the `setEvents(p => p.map ...)` executed when the
analysis call for the event with the given id settles (lines 260 and 262). -/
inductive PipeOp where
  | submit (id : String) (ts : Int) (img : String)
  | resolve (id : String) (desc : String)
deriving DecidableEq

/-- Update applied to a single event by the resolution `map`:
`e.id === newEvent.id ? { ...e, analysis: description, isAnalyzing: false } : e`. -/
def resolveOne (i d : String) (e : DetectionEvent) : DetectionEvent :=
  if e.id = i then { e with analysis := some d, isAnalyzing := false } else e

/-- Effect of one pipeline operation on the event list. -/
def applyOp (evs : List DetectionEvent) : PipeOp → List DetectionEvent
  | .submit i t m => ⟨i, t, m, none, true⟩ :: evs
  | .resolve i d => evs.map (resolveOne i d)

/-- Event list after executing a sequence of pipeline operations in order. -/
def applyTrace (evs : List DetectionEvent) : List PipeOp → List DetectionEvent
  | [] => evs
  | op :: rest => applyTrace (applyOp evs op) rest

/-- First resolution in a trace for a given event id, if any. -/
def findResolve : List PipeOp → String → Option String
  | [], _ => none
  | .submit _ _ _ :: rest, i => findResolve rest i
  | .resolve j d :: rest, i => if j = i then some d else findResolve rest i

/-- Submissions of a trace, in submission order. -/
def submitsOf : List PipeOp → List (String × Int × String)
  | [] => []
  | .submit i t m :: rest => (i, t, m) :: submitsOf rest
  | .resolve _ _ :: rest => submitsOf rest

/-- Final state of the event a submission produces, given the whole trace. -/
def eventOf (ops : List PipeOp) (x : String × Int × String) : DetectionEvent :=
  match findResolve ops x.1 with
  | none => ⟨x.1, x.2.1, x.2.2, none, true⟩
  | some d => ⟨x.1, x.2.1, x.2.2, some d, false⟩

/-- Update an already-existing event by the resolutions of a trace. -/
def updateBy (ops : List PipeOp) (e : DetectionEvent) : DetectionEvent :=
  match findResolve ops e.id with
  | none => e
  | some d => { e with analysis := some d, isAnalyzing := false }

/-- Well-formedness of a pipeline trace, mirroring the host guarantees:
event ids are fresh (the cooldown gate spaces triggers ≥ 10 s apart, so
`Date.now().toString()` ids are distinct), each analysis promise settles at
most once, and it settles only after its event was submitted. -/
def wfAux (submitted resolved : List String) : List PipeOp → Bool
  | [] => true
  | .submit i _ _ :: rest =>
      !(decide (i ∈ submitted)) && wfAux (i :: submitted) resolved rest
  | .resolve i _ :: rest =>
      decide (i ∈ submitted) && !(decide (i ∈ resolved)) &&
        wfAux submitted (i :: resolved) rest

/-- Well-formed pipeline trace started from an empty event list. -/
@[reducible] def WFTrace (ops : List PipeOp) : Prop := wfAux [] [] ops = true

/-! ## `analyzeImage` (`services/geminiService.ts` lines 21-45) -/

/-- Value thrown by JavaScript code: either an `Error` object (with `name` and
`message`) or any non-`Error` value. -/
inductive Thrown where
  | errorObj (name : String) (message : String)
  | nonError
deriving DecidableEq

/-- Outcome of the external call `ai.models.generateContent`: the promise
resolves with a response whose `text` is a string, is empty/absent, or the
response is null (`resolved none`); or the promise rejects / the body throws
(`rejected`). -/
inductive ApiOutcome where
  | resolved (text : Option String)
  | rejected (e : Thrown)
deriving DecidableEq

/-- Body of the `try` block of `analyzeImage`: return `response.text` when
`response && response.text` is truthy, otherwise
`throw new Error("A resposta da API está vazia ou malformada.")`; a rejection
of the awaited call re-raises the thrown value. -/
def tryBlock : ApiOutcome → Except Thrown String
  | .resolved (some t) =>
      if t = "" then .error (.errorObj "Error" "A resposta da API está vazia ou malformada.")
      else .ok t
  | .resolved none => .error (.errorObj "Error" "A resposta da API está vazia ou malformada.")
  | .rejected e => .error e

/-- The `catch (error)` handler of `analyzeImage`: `error instanceof Error`
yields `` `Erro na análise da IA: ${error.message}` ``, anything else yields
the unknown-error message. The handler returns (it never rethrows). -/
def catchHandler : Thrown → String
  | .errorObj _ message => "Erro na análise da IA: " ++ message
  | .nonError => "Erro desconhecido na análise da IA."

/-- String returned by `analyzeImage` for a given outcome of the external
call: the `try` result when it succeeds, the `catch` handler's string when it
throws. -/
def analyzeImage (out : ApiOutcome) : String :=
  match tryBlock out with
  | .ok t => t
  | .error e => catchHandler e

/-- Semantics of `try A catch (e) { return handler e }` as a fallible
computation: an `Except.error` result would mean the rejection escaped. -/
def tryCatchStr (body : Except Thrown String) (handler : Thrown → String) :
    Except Thrown String :=
  match body with
  | .ok t => .ok t
  | .error e => .ok (handler e)

/-- The full `analyzeImage` as a fallible computation; claim C9 is that this
never produces `Except.error`. -/
def analyzeImageRun (out : ApiOutcome) : Except Thrown String :=
  tryCatchStr (tryBlock out) catchHandler

/-- Outcomes the spec classifies as analysis failures: empty or absent
response text, or a rejected call. -/
def apiFailed : ApiOutcome → Bool
  | .resolved (some t) => decide (t = "")
  | .resolved none => true
  | .rejected _ => true

/-- The caller side in `handleMotionDetected` (part_000 lines 258-263):
`await analyzeImage` settling as a value runs the `try` branch
(resolve with the description), a rejection would run the `catch` branch
(resolve with the placeholder "Falha ao analisar a imagem."). -/
def handleResolutionCaller (evs : List DetectionEvent) (i : String)
    (res : Except Thrown String) : List DetectionEvent :=
  match res with
  | .ok d => applyOp evs (.resolve i d)
  | .error _ => applyOp evs (.resolve i "Falha ao analisar a imagem.")

/-! ## `CameraView` component state and transitions
(part_000 lines 161-320) -/

/-- State of the `CameraView` component: the `useState` values, the refs that
the detection loop and peer handler read, and a ghost log `answered` recording
every `call.answer(stream)` performed. `loopScheduled` records whether a
`requestAnimationFrame` callback is pending. -/
structure CamState where
  isMonitoring : Bool
  hasCameraPermission : Option Bool
  error : Option String
  status : String
  mediaStream : Option Nat
  loopScheduled : Bool
  lastDetectionTime : Int
  events : List DetectionEvent
  pendingCalls : List String
  answered : List (String × Nat)
deriving DecidableEq

/-- Source constant `COOLDOWN_SECONDS = 10` (part_000 line 9). -/
def COOLDOWN_SECONDS : Int := 10

/-- Outcome of `navigator.mediaDevices.getUserMedia`: a stream, or a thrown
permission/device error. -/
inductive AcqOutcome where
  | success (stream : Nat)
  | failure (e : Thrown)
deriving DecidableEq

/-- Error message chosen by the `catch` of `setupCamera` (lines 238-242). -/
def acqErrorMessage : Thrown → String
  | .errorObj name message =>
      if name = "NotAllowedError" then "Permissão para câmera negada."
      else "Erro ao acessar câmera: " ++ message
  | .nonError => "Ocorreu um erro desconhecido ao acessar a câmera."

/-- The `cleanupCamera` callback (lines 208-216): stop all tracks and drop the
stream reference. -/
def cleanupCamera (s : CamState) : CamState := { s with mediaStream := none }

/-- The `setupCamera` callback (lines 218-246), indexed by the acquisition
outcome. On success it stores the stream, records permission, answers every
pending call with the stream and clears the queue; on failure it sets the
error message, records the denial and runs `cleanupCamera`. `setError(null)`
at entry is visible only in the success branch (the failure branch overwrites
it). -/
def setupCamera (s : CamState) : AcqOutcome → CamState
  | .success m =>
      { s with
        error := none
        mediaStream := some m
        hasCameraPermission := some true
        answered := s.answered ++ s.pendingCalls.map (fun c => (c, m))
        pendingCalls := [] }
  | .failure e =>
      cleanupCamera
        { s with
          error := some (acqErrorMessage e)
          hasCameraPermission := some false }

/-- The monitoring `useEffect` (lines 306-318): while monitoring with
permission granted it sets the status, resets the cooldown gate and schedules
the detection loop; otherwise it cancels any scheduled frame and, when not
monitoring, shows the stopped status. -/
def monitoringEffect (s : CamState) : CamState :=
  if s.isMonitoring = true ∧ s.hasCameraPermission = some true then
    { s with status := "Monitorando...", lastDetectionTime := 0, loopScheduled := true }
  else if s.isMonitoring = false then
    { s with loopScheduled := false, status := "Parado" }
  else
    { s with loopScheduled := false }

/-- Effect of the user toggling monitoring on, followed by the effects the
host runs: the monitoring effect fires once while `setupCamera` is still
awaiting the camera, then `setupCamera` completes with the given outcome, then
the monitoring effect fires again on the permission change. -/
def startRequest (s : CamState) (o : AcqOutcome) : CamState :=
  monitoringEffect (setupCamera (monitoringEffect { s with isMonitoring := true }) o)

/-- Effect of the user toggling monitoring off: the camera effect runs
`cleanupCamera`, and the monitoring effect cancels the scheduled frame and
shows the stopped status. -/
def stopRequest (s : CamState) : CamState :=
  monitoringEffect (cleanupCamera { s with isMonitoring := false })

/-- Synchronous prefix of `handleMotionDetected` (lines 249-256): the cooldown
gate (`now - lastDetectionTime < COOLDOWN_SECONDS * 1000` returns early,
otherwise `lastDetectionTime = now`), event creation and prepend, and the
status update. -/
def handleMotionDetected (s : CamState) (now : Int) (img : String) : CamState :=
  if now - s.lastDetectionTime < COOLDOWN_SECONDS * 1000 then s
  else
    { s with
      lastDetectionTime := now
      events := ⟨toString now, now, img, none, true⟩ :: s.events
      status := "Analisando Imagem..." }

/-- Abstract states of the spec's MonitoringSession state machine
(spec section 3; `Analyzing` is a status annotation of `Monitoring` and is
not separated here). -/
inductive SState where
  | Stopped
  | Starting
  | Monitoring
deriving DecidableEq

/-- Abstraction map from component state to the spec's MonitoringSession
machine: a scheduled detection loop means Monitoring; monitoring requested
with the permission outcome still pending means Starting; anything else is
Stopped. -/
def sessionState (s : CamState) : SState :=
  if s.loopScheduled = true then .Monitoring
  else if s.isMonitoring = true ∧ s.hasCameraPermission = none then .Starting
  else .Stopped

/-! ## Peer session: inbound calls (part_000 lines 189-195 and 230-235) -/

/-- The `peer.on('call')` handler: answer immediately when the stream exists,
otherwise enqueue the call. -/
def onCall (s : CamState) (c : String) : CamState :=
  match s.mediaStream with
  | some m => { s with answered := s.answered ++ [(c, m)] }
  | none => { s with pendingCalls := s.pendingCalls ++ [c] }

/-- Events that affect the inbound-call handling: an inbound call, the camera
becoming ready (`setupCamera` success), and the stream being released
(`cleanupCamera`). -/
inductive PeerEv where
  | call (c : String)
  | ready (m : Nat)
  | released
deriving DecidableEq

/-- Single-step semantics of a peer event on the component state. -/
def peerStep (s : CamState) : PeerEv → CamState
  | .call c => onCall s c
  | .ready m => setupCamera s (.success m)
  | .released => cleanupCamera s

/-- State after a sequence of peer events. -/
def peerRun (s : CamState) : List PeerEv → CamState
  | [] => s
  | e :: rest => peerRun (peerStep s e) rest

/-- Number of queued entries for a given caller. -/
def countPending (s : CamState) (c : String) : ℕ :=
  (s.pendingCalls.filter (fun x => x = c)).length

/-- Number of times a given caller has been answered. -/
def countAnswered (s : CamState) (c : String) : ℕ :=
  (s.answered.filter (fun p => p.1 = c)).length

/-- Whether a camera-ready event occurs in an event sequence. -/
def hasReady : List PeerEv → Bool
  | [] => false
  | .ready _ :: _ => true
  | _ :: rest => hasReady rest

/-- Stream of the first camera-ready event of a sequence, if any. -/
def firstReady : List PeerEv → Option Nat
  | [] => none
  | .ready m :: _ => some m
  | _ :: rest => firstReady rest

/-! ## Lemmas about the frame differencer -/

lemma flattenPx_length (ps : List Pixel) : (flattenPx ps).length = 4 * ps.length := by
  induction ps with
  | nil => rfl
  | cons p ps ih => simp [flattenPx, ih]; ring

lemma frameDiff_flattenPx (ps qs : List Pixel) :
    frameDiff (flattenPx ps) (flattenPx qs) = sumDeltas ps qs := by
  induction ps generalizing qs with
  | nil => cases qs <;> simp [flattenPx, frameDiff, sumDeltas]
  | cons p ps ih =>
    cases qs with
    | nil => simp [flattenPx, frameDiff, sumDeltas]
    | cons q qs => simp [flattenPx, frameDiff, sumDeltas, pixelDelta, ih]

lemma score_flattenPx (ps qs : List Pixel) :
    score (flattenPx ps) (flattenPx qs) = (sumDeltas ps qs : ℚ) / (ps.length : ℚ) := by
  rw [score, flattenPx_length, frameDiff_flattenPx]
  congr 1
  push_cast
  ring

lemma sumDeltas_self (ps : List Pixel) : sumDeltas ps ps = 0 := by
  induction ps with
  | nil => rfl
  | cons p ps ih => simp [sumDeltas, pixelDelta, chAbs, ih]

lemma sumDeltas_uniform (ps qs : List Pixel) (d : ℕ) (hlen : ps.length = qs.length)
    (h : ∀ x ∈ List.zip ps qs,
      chAbs x.1.r x.2.r = d ∧ chAbs x.1.g x.2.g = d ∧ chAbs x.1.b x.2.b = d) :
    sumDeltas ps qs = 3 * d * ps.length := by
  induction ps generalizing qs with
  | nil => simp [sumDeltas]
  | cons p ps ih =>
    cases qs with
    | nil => simp at hlen
    | cons q qs =>
      have hpq := h (p, q) (by simp [List.zip])
      have hrest : ∀ x ∈ List.zip ps qs,
          chAbs x.1.r x.2.r = d ∧ chAbs x.1.g x.2.g = d ∧ chAbs x.1.b x.2.b = d := by
        intro x hx
        exact h x (by simp [List.zip] at hx ⊢; right; exact hx)
      have hl : ps.length = qs.length := by simpa using hlen
      simp [sumDeltas, pixelDelta, hpq.1, hpq.2.1, hpq.2.2, ih qs hl hrest]
      ring

lemma replicate_zero_flattenPx (n : ℕ) :
    List.replicate (4 * n) (0 : ℕ) = flattenPx (List.replicate n ⟨0, 0, 0, 0⟩) := by
  induction n with
  | zero => rfl
  | succ n ih =>
    rw [show 4 * (n + 1) = 4 * n + 1 + 1 + 1 + 1 by ring]
    simp only [List.replicate_succ, List.replicate]
    simp [flattenPx, ← ih]

lemma sumDeltas_blank (ps : List Pixel) :
    sumDeltas ps (List.replicate ps.length ⟨0, 0, 0, 0⟩) = sumRGB ps := by
  induction ps with
  | nil => rfl
  | cons p ps ih =>
    simp only [List.length_cons, List.replicate_succ, sumDeltas, pixelDelta, ih, sumRGB]
    simp [chAbs]

lemma score_blank (ps : List Pixel) :
    score (flattenPx ps) (List.replicate (4 * ps.length) 0) =
      (sumRGB ps : ℚ) / (ps.length : ℚ) := by
  rw [replicate_zero_flattenPx, score_flattenPx, sumDeltas_blank]

lemma sumRGB_replicate (n : ℕ) (p : Pixel) :
    sumRGB (List.replicate n p) = n * (p.r + p.g + p.b) := by
  induction n with
  | zero => simp [sumRGB]
  | succ n ih => simp [List.replicate_succ, sumRGB, ih]; ring

/-- Claim C2 (Frame Differencer): for equally-sized RGBA buffers the motion
score of `drawAndCompare` equals the spec formula
`(Σ |R1-R2| + |G1-G2| + |B1-B2|) / pixelCount` with alpha excluded; it is `0`
for identical buffers, and `3 * d` when every colour channel of every pixel
differs by exactly `d` (for a nonempty raster). -/
theorem frame_differencer_score (ps qs : List Pixel) (hlen : ps.length = qs.length) :
    score (flattenPx ps) (flattenPx qs) = specScore ps qs ∧
    (ps = qs → score (flattenPx ps) (flattenPx qs) = 0) ∧
    (∀ d : ℕ, 0 < ps.length →
      (∀ x ∈ List.zip ps qs,
        chAbs x.1.r x.2.r = d ∧ chAbs x.1.g x.2.g = d ∧ chAbs x.1.b x.2.b = d) →
      score (flattenPx ps) (flattenPx qs) = 3 * d) := by
  refine ⟨score_flattenPx ps qs, ?_, ?_⟩
  · rintro rfl
    rw [score_flattenPx, sumDeltas_self]
    simp
  · intro d hpos h
    rw [score_flattenPx, sumDeltas_uniform ps qs d hlen h]
    have hn : (ps.length : ℚ) ≠ 0 := by positivity
    push_cast
    field_simp

/-- Instantiation of claim C2 at a concrete pair of one-pixel buffers whose
channels differ uniformly by 5. -/
theorem frame_differencer_score_witness :
    ([⟨1, 2, 3, 4⟩] : List Pixel).length = ([⟨6, 7, 8, 9⟩] : List Pixel).length ∧
    (score (flattenPx [⟨1, 2, 3, 4⟩]) (flattenPx [⟨6, 7, 8, 9⟩]) =
        specScore [⟨1, 2, 3, 4⟩] [⟨6, 7, 8, 9⟩] ∧
      (([⟨1, 2, 3, 4⟩] : List Pixel) = [⟨6, 7, 8, 9⟩] →
        score (flattenPx [⟨1, 2, 3, 4⟩]) (flattenPx [⟨6, 7, 8, 9⟩]) = 0) ∧
      (∀ d : ℕ, 0 < ([⟨1, 2, 3, 4⟩] : List Pixel).length →
        (∀ x ∈ List.zip ([⟨1, 2, 3, 4⟩] : List Pixel) ([⟨6, 7, 8, 9⟩] : List Pixel),
          chAbs x.1.r x.2.r = d ∧ chAbs x.1.g x.2.g = d ∧ chAbs x.1.b x.2.b = d) →
        score (flattenPx [⟨1, 2, 3, 4⟩]) (flattenPx [⟨6, 7, 8, 9⟩]) = 3 * d)) :=
  ⟨by decide, frame_differencer_score _ _ (by decide)⟩

lemma white_frame_triggers_blank (n : ℕ) (hn : 0 < n) :
    motionTriggered (flattenPx (List.replicate n ⟨255, 255, 255, 255⟩))
      (List.replicate (4 * n) (0 : ℕ)) = true := by
  rw [motionTriggered, decide_eq_true_iff]
  have h : (4 : ℕ) * n = 4 * (List.replicate n (⟨255, 255, 255, 255⟩ : Pixel)).length := by
    simp
  rw [h, score_blank, sumRGB_replicate]
  have hq : ((n : ℚ)) ≠ 0 := by positivity
  push_cast
  rw [mul_comm, List.length_replicate, mul_div_assoc, div_self hq]
  norm_num [MOTION_SENSITIVITY]

/-- Counterexample to claim C6 as stated: on the first detection tick the
previous-frame canvas is freshly created and therefore all-zero, so a uniformly
white 320×240 first frame (76800 pixels, 307200 RGBA bytes) has motion score
765 > 50 and does trigger. -/
theorem first_tick_counterexample :
    motionTriggered (flattenPx (List.replicate 76800 ⟨255, 255, 255, 255⟩))
      (List.replicate 307200 (0 : ℕ)) = true := by
  have h : (307200 : ℕ) = 4 * 76800 := by norm_num
  rw [h]
  exact white_frame_triggers_blank 76800 (by norm_num)

/-- Claim C6 as amended: the first detection tick compares the captured frame
against the all-zero contents of the freshly created previous-frame canvas, so
it triggers motion if and only if the frame's summed R+G+B values exceed
`MOTION_SENSITIVITY` times the pixel count (mean per-pixel colour sum above
50); in particular an all-black first frame never triggers, but brighter
frames do. -/
theorem first_tick_threshold (ps : List Pixel) :
    motionTriggered (flattenPx ps) (List.replicate (4 * ps.length) 0) = true ↔
      (MOTION_SENSITIVITY : ℚ) * ps.length < (sumRGB ps : ℚ) := by
  rw [motionTriggered, decide_eq_true_iff, score_blank]
  cases ps with
  | nil => simp [sumRGB, MOTION_SENSITIVITY]
  | cons p ps =>
    have hn : (0 : ℚ) < ((p :: ps).length : ℚ) := by
      exact_mod_cast Nat.succ_pos ps.length
    rw [lt_div_iff₀ hn]

/-! ## Lemmas about the component state transitions -/

lemma monitoringEffect_isMonitoring (s : CamState) :
    (monitoringEffect s).isMonitoring = s.isMonitoring := by
  unfold monitoringEffect
  split
  · rfl
  · split <;> rfl

lemma monitoringEffect_hasCameraPermission (s : CamState) :
    (monitoringEffect s).hasCameraPermission = s.hasCameraPermission := by
  unfold monitoringEffect
  split
  · rfl
  · split <;> rfl

lemma monitoringEffect_events (s : CamState) :
    (monitoringEffect s).events = s.events := by
  unfold monitoringEffect
  split
  · rfl
  · split <;> rfl

lemma monitoringEffect_mediaStream (s : CamState) :
    (monitoringEffect s).mediaStream = s.mediaStream := by
  unfold monitoringEffect
  split
  · rfl
  · split <;> rfl

lemma monitoringEffect_error (s : CamState) :
    (monitoringEffect s).error = s.error := by
  unfold monitoringEffect
  split
  · rfl
  · split <;> rfl

lemma setupCamera_events (s : CamState) (o : AcqOutcome) :
    (setupCamera s o).events = s.events := by
  cases o <;> rfl

lemma cleanupCamera_events (s : CamState) : (cleanupCamera s).events = s.events := rfl

lemma monitoringEffect_of_perm_none (s : CamState) (h : s.hasCameraPermission = none)
    (hm : s.isMonitoring = true) :
    monitoringEffect s = { s with loopScheduled := false } := by
  rw [monitoringEffect, if_neg (by simp [h]), if_neg (by simp [hm])]

lemma monitoringEffect_loopScheduled_of_not_monitoring (s : CamState)
    (h : s.isMonitoring = false) :
    (monitoringEffect s).loopScheduled = false := by
  rw [monitoringEffect, if_neg (by simp [h]), if_pos h]

lemma startRequest_failure_eq (s : CamState) (e : Thrown) :
    startRequest s (.failure e) =
      { monitoringEffect { s with isMonitoring := true } with
        hasCameraPermission := some false
        error := some (acqErrorMessage e)
        mediaStream := none
        loopScheduled := false } := by
  have hX : (monitoringEffect { s with isMonitoring := true }).isMonitoring = true := by
    rw [monitoringEffect_isMonitoring]
  simp only [startRequest, setupCamera, cleanupCamera]
  rw [monitoringEffect, if_neg (by simp), if_neg (by simp [hX])]

lemma startRequest_success_fields (s : CamState) (m : Nat) :
    (startRequest s (.success m)).lastDetectionTime = 0 ∧
    (startRequest s (.success m)).status = "Monitorando..." ∧
    (startRequest s (.success m)).loopScheduled = true := by
  have hX : (monitoringEffect { s with isMonitoring := true }).isMonitoring = true := by
    rw [monitoringEffect_isMonitoring]
  simp only [startRequest, setupCamera]
  rw [monitoringEffect, if_pos (by exact ⟨hX, rfl⟩)]
  exact ⟨rfl, rfl, rfl⟩

lemma stopRequest_events (s : CamState) : (stopRequest s).events = s.events := by
  rw [stopRequest, monitoringEffect_events, cleanupCamera_events]

lemma startRequest_events (s : CamState) (o : AcqOutcome) :
    (startRequest s o).events = s.events := by
  rw [startRequest, monitoringEffect_events, setupCamera_events, monitoringEffect_events]

/-- Claim C1 (Cooldown Gate): `handleMotionDetected` permits a trigger — it
updates `lastDetectionTime` to `now` and creates a detection event — iff
`now - lastDetectionTime ≥ 10` seconds (10000 ms); on a denial
(`now - lastDetectionTime < 10000`) the whole state, in particular
`lastDetectionTime` and the event list, is unchanged; exactly at the
10-second boundary it permits. -/
theorem cooldown_gate_semantics (s : CamState) (now : Int) (img : String) :
    (10000 ≤ now - s.lastDetectionTime →
      (handleMotionDetected s now img).lastDetectionTime = now ∧
      (handleMotionDetected s now img).events =
        ⟨toString now, now, img, none, true⟩ :: s.events) ∧
    (now - s.lastDetectionTime < 10000 →
      handleMotionDetected s now img = s) ∧
    (now - s.lastDetectionTime = 10000 →
      (handleMotionDetected s now img).lastDetectionTime = now ∧
      (handleMotionDetected s now img).events =
        ⟨toString now, now, img, none, true⟩ :: s.events) := by
  refine ⟨?_, ?_, ?_⟩
  · intro h
    rw [handleMotionDetected, if_neg (by simp only [COOLDOWN_SECONDS]; omega)]
    exact ⟨rfl, rfl⟩
  · intro h
    rw [handleMotionDetected, if_pos (by simp only [COOLDOWN_SECONDS]; omega)]
  · intro h
    rw [handleMotionDetected, if_neg (by simp only [COOLDOWN_SECONDS]; omega)]
    exact ⟨rfl, rfl⟩

/-- Instantiation of claim C1 at a concrete state whose last trigger was at
time 0 and a current time of exactly 10000 ms: the boundary permits. -/
theorem cooldown_gate_semantics_witness :
    (10000 : Int) ≤ 10000 -
        (⟨false, none, none, "Parado", none, false, 0, [], [], []⟩ : CamState).lastDetectionTime ∧
    (handleMotionDetected ⟨false, none, none, "Parado", none, false, 0, [], [], []⟩
        10000 "img").lastDetectionTime = 10000 ∧
    (handleMotionDetected ⟨false, none, none, "Parado", none, false, 0, [], [], []⟩
        10000 "img").events = [⟨toString (10000 : Int), 10000, "img", none, true⟩] := by
  have h := cooldown_gate_semantics
    ⟨false, none, none, "Parado", none, false, 0, [], [], []⟩ 10000 "img"
  exact ⟨by decide, (h.1 (by decide)).1, (h.1 (by decide)).2⟩

/-- Claim C8 (cooldown reset on restart): a successful monitoring (re)start
resets `lastDetectionTime` to 0, the never-triggered state, so whatever the
previous session's last trigger time was, the first trigger attempt of the new
session (at any wall-clock time `now ≥ 10000` ms) is permitted and creates a
detection event. -/
theorem cooldown_reset_on_start (s : CamState) (m : Nat) (now : Int) (img : String)
    (h : 10000 ≤ now) :
    (startRequest s (.success m)).lastDetectionTime = 0 ∧
    (handleMotionDetected (startRequest s (.success m)) now img).events =
      ⟨toString now, now, img, none, true⟩ :: (startRequest s (.success m)).events := by
  have h0 := (startRequest_success_fields s m).1
  refine ⟨h0, ?_⟩
  rw [handleMotionDetected, h0, if_neg (by simp only [COOLDOWN_SECONDS]; omega)]

/-- Instantiation of claim C8: a session whose previous trigger was at time
5000 is restarted and immediately (at time 12000, within the old cooldown
window of the prior trigger) permits a detection. -/
theorem cooldown_reset_on_start_witness :
    (10000 : Int) ≤ 12000 ∧
    ((startRequest ⟨false, some true, none, "Parado", none, false, 5000, [], [], []⟩
        (.success 7)).lastDetectionTime = 0 ∧
      (handleMotionDetected
          (startRequest ⟨false, some true, none, "Parado", none, false, 5000, [], [], []⟩
            (.success 7)) 12000 "img").events =
        ⟨toString (12000 : Int), 12000, "img", none, true⟩ ::
          (startRequest ⟨false, some true, none, "Parado", none, false, 5000, [], [], []⟩
            (.success 7)).events ) :=
  ⟨by decide, cooldown_reset_on_start
    ⟨false, some true, none, "Parado", none, false, 5000, [], [], []⟩ 7 12000 "img" (by decide)⟩

/-- Claim C5 (Detection Loop on acquisition failure): starting from a stopped
session, a start request whose camera acquisition fails leaves the session in
the Stopped state of the spec's machine — the same abstract state as before
the start was requested (passing through Starting while the acquisition is
pending) — with the acquisition error surfaced, no detection loop scheduled,
no media stream held, and the status display and event list unchanged. -/
theorem acquisition_failure_stops (s : CamState) (e : Thrown)
    (h1 : s.isMonitoring = false) (h2 : s.loopScheduled = false)
    (h3 : s.hasCameraPermission = none) :
    sessionState s = .Stopped ∧
    sessionState (monitoringEffect { s with isMonitoring := true }) = .Starting ∧
    sessionState (startRequest s (.failure e)) = .Stopped ∧
    (startRequest s (.failure e)).error = some (acqErrorMessage e) ∧
    (startRequest s (.failure e)).loopScheduled = false ∧
    (startRequest s (.failure e)).mediaStream = none ∧
    (startRequest s (.failure e)).status = s.status ∧
    (startRequest s (.failure e)).events = s.events := by
  have hX : monitoringEffect { s with isMonitoring := true } =
      { s with isMonitoring := true, loopScheduled := false } := by
    rw [monitoringEffect_of_perm_none _ (by exact h3) (by rfl)]
  refine ⟨?_, ?_, ?_, ?_, ?_, ?_, ?_, ?_⟩
  · rw [sessionState, if_neg (by simp [h2]), if_neg (by simp [h1])]
  · rw [hX, sessionState, if_neg (by simp), if_pos (by exact ⟨rfl, h3⟩)]
  · rw [startRequest_failure_eq, sessionState, if_neg (by simp), if_neg (by simp)]
  · rw [startRequest_failure_eq]
  · rw [startRequest_failure_eq]
  · rw [startRequest_failure_eq]
  · rw [startRequest_failure_eq]
    show (monitoringEffect { s with isMonitoring := true }).status = s.status
    rw [hX]
  · rw [startRequest_failure_eq]
    show (monitoringEffect { s with isMonitoring := true }).events = s.events
    rw [monitoringEffect_events]

/-- Instantiation of claim C5 at the initial component state and a
permission-denied error. -/
theorem acquisition_failure_stops_witness :
    ((⟨false, none, none, "Parado", none, false, 0, [], [], []⟩ : CamState).isMonitoring
        = false ∧
      (⟨false, none, none, "Parado", none, false, 0, [], [], []⟩ : CamState).loopScheduled
        = false ∧
      (⟨false, none, none, "Parado", none, false, 0, [], [], []⟩ : CamState).hasCameraPermission
        = none) ∧
    (sessionState (startRequest ⟨false, none, none, "Parado", none, false, 0, [], [], []⟩
        (.failure (.errorObj "NotAllowedError" "denied"))) = .Stopped ∧
      (startRequest ⟨false, none, none, "Parado", none, false, 0, [], [], []⟩
        (.failure (.errorObj "NotAllowedError" "denied"))).error =
        some (acqErrorMessage (.errorObj "NotAllowedError" "denied")) ∧
      (startRequest ⟨false, none, none, "Parado", none, false, 0, [], [], []⟩
        (.failure (.errorObj "NotAllowedError" "denied"))).loopScheduled = false) := by
  have h := acquisition_failure_stops
    ⟨false, none, none, "Parado", none, false, 0, [], [], []⟩
    (.errorObj "NotAllowedError" "denied") rfl rfl rfl
  exact ⟨⟨rfl, rfl, rfl⟩, h.2.2.1, h.2.2.2.1, h.2.2.2.2.1⟩

/-- Claim C10 (stop is a frame effect on events): stopping monitoring releases
the media stream and cancels the scheduled tick but leaves the detection-event
list exactly as it was; a start request also leaves it unchanged, and hence
any number of stop/start cycles retains all accumulated events in order. -/
theorem stop_preserves_events (s : CamState) (o : AcqOutcome) (outs : List AcqOutcome) :
    (stopRequest s).events = s.events ∧
    (stopRequest s).mediaStream = none ∧
    (stopRequest s).loopScheduled = false ∧
    (startRequest s o).events = s.events ∧
    (outs.foldl (fun t oc => stopRequest (startRequest t oc)) s).events = s.events := by
  refine ⟨stopRequest_events s, ?_, ?_, startRequest_events s o, ?_⟩
  · rw [stopRequest, monitoringEffect_mediaStream, cleanupCamera]
  · rw [stopRequest]
    exact monitoringEffect_loopScheduled_of_not_monitoring _ rfl
  · induction outs generalizing s with
    | nil => rfl
    | cons oc rest ih =>
      rw [List.foldl_cons, ih, stopRequest_events, startRequest_events]

/-! ## Lemmas about the analysis pipeline traces -/

lemma resolveOne_id (i d : String) (e : DetectionEvent) : (resolveOne i d e).id = e.id := by
  rw [resolveOne]
  split <;> rfl

lemma eventOf_id (ops : List PipeOp) (x : String × Int × String) :
    (eventOf ops x).id = x.1 := by
  cases hf : findResolve ops x.1 <;> simp [eventOf, hf]

lemma eventOf_fields (ops : List PipeOp) (x : String × Int × String) :
    (eventOf ops x).isAnalyzing = (findResolve ops x.1).isNone ∧
    (eventOf ops x).analysis = findResolve ops x.1 := by
  cases hf : findResolve ops x.1 <;> simp [eventOf, hf]

lemma findResolve_eq_none_of_resolved (ops : List PipeOp) :
    ∀ (s r : List String) (i : String), wfAux s r ops = true → i ∈ r →
      findResolve ops i = none := by
  induction ops with
  | nil => intro s r i _ _; rfl
  | cons op rest ih =>
    intro s r i h hir
    cases op with
    | submit j t m =>
      simp only [wfAux, Bool.and_eq_true] at h
      exact ih _ _ _ h.2 hir
    | resolve j d =>
      simp only [wfAux, Bool.and_eq_true, Bool.not_eq_true', decide_eq_true_eq,
        decide_eq_false_iff_not] at h
      rw [findResolve, if_neg]
      · exact ih _ _ _ h.2 (List.mem_cons_of_mem _ hir)
      · intro hji
        subst hji
        exact h.1.2 hir

lemma submits_fresh (ops : List PipeOp) :
    ∀ (s r : List String) (x : String × Int × String), wfAux s r ops = true →
      x ∈ submitsOf ops → x.1 ∉ s := by
  induction ops with
  | nil => intro s r x _ hx; simp [submitsOf] at hx
  | cons op rest ih =>
    intro s r x h hx
    cases op with
    | submit j t m =>
      simp only [wfAux, Bool.and_eq_true, Bool.not_eq_true', decide_eq_false_iff_not] at h
      rw [submitsOf] at hx
      rcases List.mem_cons.mp hx with h1 | h1
      · subst h1
        exact h.1
      · intro hs
        exact (ih _ _ _ h.2 h1) (List.mem_cons_of_mem _ hs)
    | resolve j d =>
      simp only [wfAux, Bool.and_eq_true] at h
      rw [submitsOf] at hx
      exact ih _ _ _ h.2 hx

lemma wfAux_append_left (ops₁ ops₂ : List PipeOp) :
    ∀ s r, wfAux s r (ops₁ ++ ops₂) = true → wfAux s r ops₁ = true := by
  induction ops₁ with
  | nil => intro s r _; rfl
  | cons op rest ih =>
    intro s r h
    cases op with
    | submit j t m =>
      simp only [List.cons_append, wfAux, Bool.and_eq_true] at h ⊢
      exact ⟨h.1, ih _ _ h.2⟩
    | resolve j d =>
      simp only [List.cons_append, wfAux, Bool.and_eq_true] at h ⊢
      exact ⟨h.1, ih _ _ h.2⟩

lemma findResolve_ne_none_of_mem (ops : List PipeOp) (i d : String) :
    PipeOp.resolve i d ∈ ops → findResolve ops i ≠ none := by
  induction ops with
  | nil => intro h; simp at h
  | cons op rest ih =>
    intro h hn
    cases op with
    | submit j t m =>
      rw [findResolve] at hn
      rcases List.mem_cons.mp h with h1 | h1
      · exact PipeOp.noConfusion h1
      · exact ih h1 hn
    | resolve j d2 =>
      rw [findResolve] at hn
      by_cases hji : j = i
      · rw [if_pos hji] at hn
        exact Option.noConfusion hn
      · rcases List.mem_cons.mp h with h1 | h1
        · injection h1 with e1 e2
          exact hji e1.symm
        · rw [if_neg hji] at hn
          exact ih h1 hn

lemma findResolve_of_mem_wf (ops : List PipeOp) :
    ∀ (s r : List String) (i d : String), wfAux s r ops = true →
      PipeOp.resolve i d ∈ ops → findResolve ops i = some d := by
  induction ops with
  | nil => intro s r i d _ h; simp at h
  | cons op rest ih =>
    intro s r i d h hm
    cases op with
    | submit j t m =>
      simp only [wfAux, Bool.and_eq_true] at h
      rw [findResolve]
      rcases List.mem_cons.mp hm with h1 | h1
      · exact PipeOp.noConfusion h1
      · exact ih _ _ _ _ h.2 h1
    | resolve j d2 =>
      simp only [wfAux, Bool.and_eq_true, Bool.not_eq_true', decide_eq_true_eq,
        decide_eq_false_iff_not] at h
      rcases List.mem_cons.mp hm with h1 | h1
      · injection h1 with e1 e2
        subst e1
        subst e2
        rw [findResolve, if_pos rfl]
      · by_cases hji : j = i
        · subst hji
          have hnone := findResolve_eq_none_of_resolved rest s (j :: r) j h.2 (by simp)
          exact absurd hnone (findResolve_ne_none_of_mem rest j d h1)
        · rw [findResolve, if_neg hji]
          exact ih _ _ _ _ h.2 h1

lemma applyTrace_eq (ops : List PipeOp) :
    ∀ (evs : List DetectionEvent) (resolved : List String),
      wfAux (evs.map (fun e => e.id)) resolved ops = true →
      applyTrace evs ops =
        (submitsOf ops).reverse.map (eventOf ops) ++ evs.map (updateBy ops) := by
  induction ops with
  | nil =>
    intro evs resolved _
    simp only [applyTrace, submitsOf, List.reverse_nil, List.map_nil, List.nil_append]
    have hu : ∀ e ∈ evs, updateBy [] e = id e := fun e _ => rfl
    rw [List.map_congr_left hu, List.map_id]
  | cons op rest ih =>
    intro evs resolved h
    cases op with
    | submit i t m =>
      simp only [wfAux, Bool.and_eq_true] at h
      rw [applyTrace, applyOp]
      have h2 : wfAux (((⟨i, t, m, none, true⟩ : DetectionEvent) :: evs).map
          (fun e => e.id)) resolved rest = true := by
        simpa using h.2
      rw [ih _ _ h2]
      have he : eventOf (PipeOp.submit i t m :: rest) = eventOf rest := rfl
      have hu : updateBy (PipeOp.submit i t m :: rest) = updateBy rest := rfl
      have key : updateBy rest ⟨i, t, m, none, true⟩ = eventOf rest (i, t, m) := by
        cases hf : findResolve rest i <;> simp [updateBy, eventOf, hf]
      rw [submitsOf, List.reverse_cons, List.map_append, he, hu]
      simp [key]
    | resolve i d =>
      simp only [wfAux, Bool.and_eq_true, Bool.not_eq_true', decide_eq_true_eq,
        decide_eq_false_iff_not] at h
      rw [applyTrace, applyOp]
      have hids : (evs.map (resolveOne i d)).map (fun e => e.id) =
          evs.map (fun e => e.id) := by
        rw [List.map_map]
        exact List.map_congr_left (fun e _ => resolveOne_id i d e)
      rw [ih _ _ (by rw [hids]; exact h.2)]
      have hsub : submitsOf (PipeOp.resolve i d :: rest) = submitsOf rest := rfl
      have hev : ∀ x ∈ (submitsOf rest).reverse,
          eventOf (PipeOp.resolve i d :: rest) x = eventOf rest x := by
        intro x hx
        have hxs : x ∈ submitsOf rest := List.mem_reverse.mp hx
        have hfresh : x.1 ∉ evs.map (fun e => e.id) :=
          submits_fresh rest _ _ x h.2 hxs
        have hne : i ≠ x.1 := by
          intro hix
          exact hfresh (hix ▸ h.1.1)
        have hfr : findResolve (PipeOp.resolve i d :: rest) x.1 = findResolve rest x.1 := by
          rw [findResolve, if_neg hne]
        simp only [eventOf, hfr]
      have hupd : ∀ e ∈ evs,
          updateBy rest (resolveOne i d e) = updateBy (PipeOp.resolve i d :: rest) e := by
        intro e _
        by_cases he : e.id = i
        · have hre : resolveOne i d e =
              { e with analysis := some d, isAnalyzing := false } := by
            rw [resolveOne, if_pos he]
          have hnone : findResolve rest i = none :=
            findResolve_eq_none_of_resolved rest _ _ i h.2 (by simp)
          have hL : updateBy rest (resolveOne i d e) =
              { e with analysis := some d, isAnalyzing := false } := by
            rw [hre, updateBy]
            have : ({ e with analysis := some d, isAnalyzing := false } :
                DetectionEvent).id = i := he
            rw [this, hnone]
          have hR : findResolve (PipeOp.resolve i d :: rest) e.id = some d := by
            rw [findResolve, if_pos he.symm]
          rw [hL, updateBy, hR]
        · have hre : resolveOne i d e = e := by
            rw [resolveOne, if_neg he]
          have hfr : findResolve (PipeOp.resolve i d :: rest) e.id =
              findResolve rest e.id := by
            rw [findResolve, if_neg (fun hh => he hh.symm)]
          rw [hre, updateBy, updateBy, hfr]
      have e1 : (submitsOf (PipeOp.resolve i d :: rest)).reverse.map
          (eventOf (PipeOp.resolve i d :: rest)) =
          (submitsOf rest).reverse.map (eventOf rest) := by
        rw [hsub]
        exact List.map_congr_left hev
      have e2 : evs.map (updateBy (PipeOp.resolve i d :: rest)) =
          (evs.map (resolveOne i d)).map (updateBy rest) := by
        rw [List.map_map]
        exact (List.map_congr_left hupd).symm
      rw [e1, e2]

lemma erro_leading (m : String) :
    ∃ r, ("Erro na análise da IA: " ++ m) = "Erro" ++ r := by
  refine ⟨" na análise da IA: " ++ m, ?_⟩
  rw [show ("Erro na análise da IA: " : String) = "Erro" ++ " na análise da IA: " from
    by decide, String.append_assoc]

lemma erro_ne_falha (r : String) : ("Erro" ++ r) ≠ "Falha ao analisar a imagem." := by
  intro h
  have hd := congrArg String.data h
  rw [String.data_append] at hd
  have h1 : ("Erro" : String).data = ['E', 'r', 'r', 'o'] := rfl
  have h2 : ("Falha ao analisar a imagem." : String).data =
      'F' :: "alha ao analisar a imagem.".data := rfl
  rw [h1, h2] at hd
  simp at hd

lemma analyzeImage_failed_erro (out : ApiOutcome) (hf : apiFailed out = true) :
    ∃ r, analyzeImage out = "Erro" ++ r := by
  cases out with
  | resolved text =>
    cases text with
    | none =>
      exact ⟨" na análise da IA: A resposta da API está vazia ou malformada.", by decide⟩
    | some t =>
      have ht : t = "" := by simpa [apiFailed] using hf
      subst ht
      exact ⟨" na análise da IA: A resposta da API está vazia ou malformada.", by decide⟩
  | rejected e =>
    cases e with
    | errorObj n m => exact erro_leading m
    | nonError => exact ⟨" desconhecido na análise da IA.", by decide⟩

/-- Claim C3 (Analysis Pipeline invariant): along any well-formed pipeline
trace, the final event list is exactly the submissions in reverse submission
order, each carrying its resolution outcome; and at every intermediate point
of the trace an event is `isAnalyzing` with `analysis = null` exactly until
the unique resolution of its own analysis call, independent of the completion
order of the calls. -/
theorem analysis_pipeline_events (ops : List PipeOp) (h : WFTrace ops) :
    applyTrace [] ops = (submitsOf ops).reverse.map (eventOf ops) ∧
    (∀ ops₁ ops₂, ops = ops₁ ++ ops₂ →
      ∀ e ∈ applyTrace [] ops₁,
        e.isAnalyzing = (findResolve ops₁ e.id).isNone ∧
        e.analysis = findResolve ops₁ e.id) := by
  have hmain : ∀ t : List PipeOp, wfAux [] [] t = true →
      applyTrace [] t = (submitsOf t).reverse.map (eventOf t) := by
    intro t ht
    have hc := applyTrace_eq t [] [] ht
    simpa using hc
  refine ⟨hmain ops h, ?_⟩
  intro ops₁ ops₂ hsplit e he
  have h1 : wfAux [] [] ops₁ = true :=
    wfAux_append_left ops₁ ops₂ [] [] (by rw [← hsplit]; exact h)
  rw [hmain ops₁ h1] at he
  obtain ⟨x, hx, rfl⟩ := List.mem_map.mp he
  rw [eventOf_id]
  exact eventOf_fields ops₁ x

/-- Instantiation of claim C3 on a concrete two-event trace whose analysis
calls complete in reverse submission order. -/
theorem analysis_pipeline_events_witness :
    WFTrace [PipeOp.submit "1" 100 "a", PipeOp.submit "2" 200 "b",
      PipeOp.resolve "2" "dog", PipeOp.resolve "1" "cat"] ∧
    (applyTrace [] [PipeOp.submit "1" 100 "a", PipeOp.submit "2" 200 "b",
        PipeOp.resolve "2" "dog", PipeOp.resolve "1" "cat"] =
      (submitsOf [PipeOp.submit "1" 100 "a", PipeOp.submit "2" 200 "b",
        PipeOp.resolve "2" "dog", PipeOp.resolve "1" "cat"]).reverse.map
        (eventOf [PipeOp.submit "1" 100 "a", PipeOp.submit "2" 200 "b",
          PipeOp.resolve "2" "dog", PipeOp.resolve "1" "cat"]) ∧
      (∀ ops₁ ops₂, [PipeOp.submit "1" 100 "a", PipeOp.submit "2" 200 "b",
          PipeOp.resolve "2" "dog", PipeOp.resolve "1" "cat"] = ops₁ ++ ops₂ →
        ∀ e ∈ applyTrace [] ops₁,
          e.isAnalyzing = (findResolve ops₁ e.id).isNone ∧
          e.analysis = findResolve ops₁ e.id)) :=
  ⟨by decide, analysis_pipeline_events _ (by decide)⟩

/-- Claim C7 (analysis failure handling): when the analysis call of an event
fails — empty or malformed response, or a rejected call — the trace resolves
that event with the string `analyzeImage` produced, which is a human-readable
failure placeholder (it begins with "Erro"); the event ends with that
placeholder stored and `isAnalyzing = false`, it is resolved only once (the
trace well-formedness admits no retry), no exception escapes (`analyzeImage`
returns a string in every case), and all other submitted events are still
present in their usual newest-first order. -/
theorem analysis_failure_marks_event (ops : List PipeOp) (h : WFTrace ops)
    (out : ApiOutcome) (hf : apiFailed out = true) (i : String)
    (hres : PipeOp.resolve i (analyzeImage out) ∈ ops) :
    (∃ r, analyzeImage out = "Erro" ++ r) ∧
    (∀ e ∈ applyTrace [] ops, e.id = i →
      e.analysis = some (analyzeImage out) ∧ e.isAnalyzing = false) ∧
    (applyTrace [] ops).map (fun e => e.id) =
      ((submitsOf ops).map (fun x => x.1)).reverse := by
  have hchar : applyTrace [] ops = (submitsOf ops).reverse.map (eventOf ops) := by
    have hc := applyTrace_eq ops [] [] h
    simpa using hc
  have hfr : findResolve ops i = some (analyzeImage out) :=
    findResolve_of_mem_wf ops [] [] i (analyzeImage out) h hres
  refine ⟨analyzeImage_failed_erro out hf, ?_, ?_⟩
  · intro e he hei
    rw [hchar] at he
    obtain ⟨x, hx, rfl⟩ := List.mem_map.mp he
    have hxid : x.1 = i := (eventOf_id ops x).symm.trans hei
    have hff := eventOf_fields ops x
    rw [hxid, hfr] at hff
    exact ⟨hff.2, by simpa using hff.1⟩
  · rw [hchar, List.map_map]
    have hcomp : ∀ x ∈ (submitsOf ops).reverse,
        ((fun e : DetectionEvent => e.id) ∘ eventOf ops) x = x.1 :=
      fun x _ => eventOf_id ops x
    rw [List.map_congr_left hcomp, List.map_reverse]

/-- Instantiation of claim C7 on a one-event trace whose analysis call rejects
with a non-Error value. -/
theorem analysis_failure_marks_event_witness :
    WFTrace [PipeOp.submit "5" 100 "img",
      PipeOp.resolve "5" (analyzeImage (.rejected .nonError))] ∧
    apiFailed (.rejected .nonError) = true ∧
    PipeOp.resolve "5" (analyzeImage (.rejected .nonError)) ∈
      [PipeOp.submit "5" 100 "img",
        PipeOp.resolve "5" (analyzeImage (.rejected .nonError))] ∧
    ((∃ r, analyzeImage (.rejected .nonError) = "Erro" ++ r) ∧
      (∀ e ∈ applyTrace [] [PipeOp.submit "5" 100 "img",
          PipeOp.resolve "5" (analyzeImage (.rejected .nonError))], e.id = "5" →
        e.analysis = some (analyzeImage (.rejected .nonError)) ∧ e.isAnalyzing = false) ∧
      (applyTrace [] [PipeOp.submit "5" 100 "img",
          PipeOp.resolve "5" (analyzeImage (.rejected .nonError))]).map (fun e => e.id) =
        ((submitsOf [PipeOp.submit "5" 100 "img",
          PipeOp.resolve "5" (analyzeImage (.rejected .nonError))]).map
            (fun x => x.1)).reverse) :=
  ⟨by decide, rfl, by simp,
    analysis_failure_marks_event
      [PipeOp.submit "5" 100 "img",
        PipeOp.resolve "5" (analyzeImage (.rejected .nonError))]
      (by decide) (.rejected .nonError) rfl "5" (by simp)⟩

/-- Claim C9 (implicit totality of `analyzeImage`): for every outcome of the
external call, `analyzeImage` resolves with a string and never rejects, so the
caller's `catch` branch writing "Falha ao analisar a imagem." is unreachable —
the caller's update is always the `try`-branch resolution with the string
`analyzeImage` returned — and on a failed analysis that stored string comes
from `analyzeImage`'s own error handler and begins with "Erro" (in particular
it is never the caller's placeholder). -/
theorem analyzeImage_never_rejects (out : ApiOutcome) :
    analyzeImageRun out = .ok (analyzeImage out) ∧
    (∀ evs i, handleResolutionCaller evs i (analyzeImageRun out) =
      applyOp evs (.resolve i (analyzeImage out))) ∧
    (apiFailed out = true →
      (∃ r, analyzeImage out = "Erro" ++ r) ∧
      analyzeImage out ≠ "Falha ao analisar a imagem.") := by
  have h1 : analyzeImageRun out = .ok (analyzeImage out) := by
    cases hb : tryBlock out with
    | ok t => simp [analyzeImageRun, tryCatchStr, analyzeImage, hb]
    | error e => simp [analyzeImageRun, tryCatchStr, analyzeImage, hb]
  refine ⟨h1, ?_, ?_⟩
  · intro evs i
    rw [h1, handleResolutionCaller]
  · intro hf
    refine ⟨analyzeImage_failed_erro out hf, ?_⟩
    obtain ⟨r, hr⟩ := analyzeImage_failed_erro out hf
    rw [hr]
    exact erro_ne_falha r

/-- Instantiation of claim C9 at a rejection with a non-Error thrown value. -/
theorem analyzeImage_never_rejects_witness :
    apiFailed (.rejected .nonError) = true ∧
    (analyzeImageRun (.rejected .nonError) = .ok (analyzeImage (.rejected .nonError)) ∧
      (∀ evs i, handleResolutionCaller evs i (analyzeImageRun (.rejected .nonError)) =
        applyOp evs (.resolve i (analyzeImage (.rejected .nonError)))) ∧
      (apiFailed (.rejected .nonError) = true →
        (∃ r, analyzeImage (.rejected .nonError) = "Erro" ++ r) ∧
        analyzeImage (.rejected .nonError) ≠ "Falha ao analisar a imagem.")) :=
  ⟨rfl, analyzeImage_never_rejects (.rejected .nonError)⟩

/-! ## Lemmas about inbound-call handling -/

lemma filter_map_pair (l : List String) (m : Nat) (c : String) :
    (l.map (fun x => (x, m))).filter (fun p => p.1 = c) =
      (l.filter (fun x => x = c)).map (fun x => (x, m)) := by
  induction l with
  | nil => rfl
  | cons x xs ih =>
    by_cases hx : x = c <;> simp [List.filter_cons, hx, ih]

lemma firstReady_eq_none_of_hasReady_false (tr : List PeerEv) (h : hasReady tr = false) :
    firstReady tr = none := by
  induction tr with
  | nil => rfl
  | cons e rest ih =>
    cases e with
    | call c => exact ih (by simpa [hasReady] using h)
    | ready m => simp [hasReady] at h
    | released => exact ih (by simpa [hasReady] using h)

lemma mem_answered_peerStep (s : CamState) (e : PeerEv) (x : String × Nat)
    (h : x ∈ s.answered) : x ∈ (peerStep s e).answered := by
  cases e with
  | call c =>
    rw [peerStep]
    cases hm : s.mediaStream <;> simp [onCall, hm, h]
  | ready m => simp [peerStep, setupCamera, h]
  | released => simpa [peerStep, cleanupCamera] using h

lemma mem_answered_peerRun (s : CamState) (tr : List PeerEv) (x : String × Nat)
    (h : x ∈ s.answered) : x ∈ (peerRun s tr).answered := by
  induction tr generalizing s with
  | nil => exact h
  | cons e rest ih => exact ih _ (mem_answered_peerStep s e x h)

lemma peerRun_no_call_stable (tr : List PeerEv) :
    ∀ (s : CamState) (c : String), PeerEv.call c ∉ tr → countPending s c = 0 →
      countPending (peerRun s tr) c = 0 ∧
      countAnswered (peerRun s tr) c = countAnswered s c := by
  induction tr with
  | nil =>
    intro s c _ hp
    exact ⟨hp, rfl⟩
  | cons e rest ih =>
    intro s c hc hp
    have hcrest : PeerEv.call c ∉ rest := fun hh => hc (List.mem_cons_of_mem _ hh)
    cases e with
    | call c2 =>
      have hne : c2 ≠ c := by
        intro hh
        exact hc (by rw [hh]; exact List.mem_cons_self _ _)
      rw [peerRun, peerStep]
      cases hm : s.mediaStream with
      | some m =>
        have h1 : countPending (onCall s c2) c = 0 := by
          simpa [onCall, hm, countPending] using hp
        have h2 : countAnswered (onCall s c2) c = countAnswered s c := by
          simp [onCall, hm, countAnswered, List.filter_append, hne]
        obtain ⟨ha, hb⟩ := ih (onCall s c2) c hcrest h1
        exact ⟨ha, by rw [hb, h2]⟩
      | none =>
        have h1 : countPending (onCall s c2) c = 0 := by
          rw [countPending] at hp ⊢
          simp [onCall, hm, List.filter_append, hne]
          simpa using hp
        have h2 : countAnswered (onCall s c2) c = countAnswered s c := by
          simp [onCall, hm, countAnswered]
        obtain ⟨ha, hb⟩ := ih (onCall s c2) c hcrest h1
        exact ⟨ha, by rw [hb, h2]⟩
    | ready m =>
      have hpend : s.pendingCalls.filter (fun x => x = c) = [] := by
        rw [countPending] at hp
        exact List.length_eq_zero.mp hp
      have h1 : countPending (setupCamera s (.success m)) c = 0 := by
        simp [setupCamera, countPending]
      have h2 : countAnswered (setupCamera s (.success m)) c = countAnswered s c := by
        rw [countAnswered, countAnswered]
        simp only [setupCamera, List.filter_append, List.length_append,
          filter_map_pair, hpend]
        simp
      rw [peerRun, peerStep]
      obtain ⟨ha, hb⟩ := ih (setupCamera s (.success m)) c hcrest h1
      exact ⟨ha, by rw [hb, h2]⟩
    | released =>
      have h1 : countPending (cleanupCamera s) c = 0 := hp
      have h2 : countAnswered (cleanupCamera s) c = countAnswered s c := rfl
      rw [peerRun, peerStep]
      obtain ⟨ha, hb⟩ := ih (cleanupCamera s) c hcrest h1
      exact ⟨ha, by rw [hb, h2]⟩

lemma peerRun_pending_until_ready (tr : List PeerEv) :
    ∀ (s : CamState) (c : String), PeerEv.call c ∉ tr →
      countPending s c = 1 → countAnswered s c = 0 →
      (firstReady tr = none →
        countPending (peerRun s tr) c = 1 ∧ countAnswered (peerRun s tr) c = 0) ∧
      (∀ m, firstReady tr = some m →
        countPending (peerRun s tr) c = 0 ∧ countAnswered (peerRun s tr) c = 1 ∧
        (c, m) ∈ (peerRun s tr).answered) := by
  induction tr with
  | nil =>
    intro s c _ hp ha
    exact ⟨fun _ => ⟨hp, ha⟩, fun m hm => by simp [firstReady] at hm⟩
  | cons e rest ih =>
    intro s c hc hp ha
    have hcrest : PeerEv.call c ∉ rest := fun hh => hc (List.mem_cons_of_mem _ hh)
    cases e with
    | call c2 =>
      have hne : c2 ≠ c := by
        intro hh
        exact hc (by rw [hh]; exact List.mem_cons_self _ _)
      have hfr : firstReady (PeerEv.call c2 :: rest) = firstReady rest := rfl
      rw [peerRun, peerStep, hfr]
      cases hm : s.mediaStream with
      | some m =>
        have h1 : countPending (onCall s c2) c = 1 := by
          simpa [onCall, hm, countPending] using hp
        have h2 : countAnswered (onCall s c2) c = 0 := by
          rw [countAnswered] at ha ⊢
          simp [onCall, hm, List.filter_append, hne]
          simpa using ha
        exact ih (onCall s c2) c hcrest h1 h2
      | none =>
        have h1 : countPending (onCall s c2) c = 1 := by
          rw [countPending] at hp ⊢
          simp [onCall, hm, List.filter_append, hne]
          simpa using hp
        have h2 : countAnswered (onCall s c2) c = 0 := by
          simpa [onCall, hm, countAnswered] using ha
        exact ih (onCall s c2) c hcrest h1 h2
    | ready m =>
      have hcm : c ∈ s.pendingCalls := by
        rw [countPending] at hp
        have hne : s.pendingCalls.filter (fun x => x = c) ≠ [] := by
          intro hh
          rw [hh] at hp
          simp at hp
        obtain ⟨x, hxmem⟩ := List.exists_mem_of_ne_nil _ hne
        have := List.mem_filter.mp hxmem
        have hxc : x = c := by simpa using this.2
        exact hxc ▸ this.1
      have h1 : countPending (setupCamera s (.success m)) c = 0 := by
        simp [setupCamera, countPending]
      have h2 : countAnswered (setupCamera s (.success m)) c = 1 := by
        rw [countAnswered] at ha ⊢
        simp only [setupCamera, List.filter_append, List.length_append,
          filter_map_pair]
        rw [ha]
        rw [countPending] at hp
        simp [hp]
      have h3 : (c, m) ∈ (setupCamera s (.success m)).answered := by
        simp only [setupCamera, List.mem_append]
        right
        exact List.mem_map.mpr ⟨c, hcm, rfl⟩
      rw [peerRun, peerStep]
      obtain ⟨hs1, hs2⟩ := peerRun_no_call_stable rest (setupCamera s (.success m)) c
        hcrest h1
      refine ⟨fun hnone => by simp [firstReady] at hnone, fun m2 hm2 => ?_⟩
      have hm2' : m2 = m := by
        rw [firstReady] at hm2
        exact (Option.some.injEq _ _ ▸ hm2).symm
      subst hm2'
      exact ⟨hs1, by rw [hs2, h2], mem_answered_peerRun _ rest (c, m2) h3⟩
    | released =>
      have hfr : firstReady (PeerEv.released :: rest) = firstReady rest := rfl
      rw [peerRun, peerStep, hfr]
      exact ih (cleanupCamera s) c hcrest hp ha

lemma peerRun_append (s : CamState) (a b : List PeerEv) :
    peerRun s (a ++ b) = peerRun (peerRun s a) b := by
  induction a generalizing s with
  | nil => rfl
  | cons e rest ih => rw [List.cons_append, peerRun, peerRun, ih]

/-- Claim C4 (Stream Session Manager): an inbound call arriving while the
media source is available is answered immediately with that source; one
arriving while the source is absent is enqueued — neither answered nor
dropped for as long as no camera-ready event occurs — and when the source
becomes available it is answered exactly once with it, the queue being
cleared; if the source never becomes available it stays queued, unanswered. -/
theorem stream_session_calls (s : CamState) (tr₁ tr₂ : List PeerEv) (c : String)
    (h0p : countPending s c = 0) (h0a : countAnswered s c = 0)
    (hc1 : PeerEv.call c ∉ tr₁) (hc2 : PeerEv.call c ∉ tr₂) :
    (∀ m, (peerRun s tr₁).mediaStream = some m →
      (onCall (peerRun s tr₁) c).answered = (peerRun s tr₁).answered ++ [(c, m)] ∧
      (onCall (peerRun s tr₁) c).pendingCalls = (peerRun s tr₁).pendingCalls ∧
      countAnswered (peerRun s (tr₁ ++ PeerEv.call c :: tr₂)) c = 1) ∧
    ((peerRun s tr₁).mediaStream = none →
      (onCall (peerRun s tr₁) c).pendingCalls = (peerRun s tr₁).pendingCalls ++ [c] ∧
      countAnswered (onCall (peerRun s tr₁) c) c = 0 ∧
      (∀ u v, tr₂ = u ++ v → hasReady u = false →
        countAnswered (peerRun s (tr₁ ++ PeerEv.call c :: u)) c = 0 ∧
        countPending (peerRun s (tr₁ ++ PeerEv.call c :: u)) c = 1) ∧
      (∀ m, firstReady tr₂ = some m →
        countAnswered (peerRun s (tr₁ ++ PeerEv.call c :: tr₂)) c = 1 ∧
        countPending (peerRun s (tr₁ ++ PeerEv.call c :: tr₂)) c = 0 ∧
        (c, m) ∈ (peerRun s (tr₁ ++ PeerEv.call c :: tr₂)).answered) ∧
      (firstReady tr₂ = none →
        countAnswered (peerRun s (tr₁ ++ PeerEv.call c :: tr₂)) c = 0 ∧
        countPending (peerRun s (tr₁ ++ PeerEv.call c :: tr₂)) c = 1)) ∧
    (∀ (t : CamState) (m : Nat), (setupCamera t (.success m)).pendingCalls = []) := by
  obtain ⟨h1p, h1a⟩ := peerRun_no_call_stable tr₁ s c hc1 h0p
  rw [h0a] at h1a
  have hrun : ∀ u : List PeerEv,
      peerRun s (tr₁ ++ PeerEv.call c :: u) = peerRun (onCall (peerRun s tr₁) c) u := by
    intro u
    rw [peerRun_append]
    rfl
  refine ⟨?_, ?_, fun t m => rfl⟩
  · intro m hm
    refine ⟨by simp [onCall, hm], by simp [onCall, hm], ?_⟩
    have h2p : countPending (onCall (peerRun s tr₁) c) c = 0 := by
      simpa [onCall, hm, countPending] using h1p
    have h2a : countAnswered (onCall (peerRun s tr₁) c) c = 1 := by
      rw [countAnswered]
      simp [onCall, hm, List.filter_append]
      simpa [countAnswered] using h1a
    rw [hrun tr₂]
    obtain ⟨-, hb⟩ := peerRun_no_call_stable tr₂ (onCall (peerRun s tr₁) c) c hc2 h2p
    rw [hb, h2a]
  · intro hm
    have h2p : countPending (onCall (peerRun s tr₁) c) c = 1 := by
      rw [countPending]
      simp [onCall, hm, List.filter_append]
      simpa [countPending] using h1p
    have h2a : countAnswered (onCall (peerRun s tr₁) c) c = 0 := by
      simpa [onCall, hm, countAnswered] using h1a
    refine ⟨by simp [onCall, hm], h2a, ?_, ?_, ?_⟩
    · intro u v hsplit hnr
      have hcu : PeerEv.call c ∉ u := by
        intro hh
        exact hc2 (hsplit ▸ List.mem_append_left v hh)
      have hfru : firstReady u = none := firstReady_eq_none_of_hasReady_false u hnr
      rw [hrun u]
      obtain ⟨hw, -⟩ := peerRun_pending_until_ready u (onCall (peerRun s tr₁) c) c
        hcu h2p h2a
      exact ⟨(hw hfru).2, (hw hfru).1⟩
    · intro m hfr
      rw [hrun tr₂]
      obtain ⟨-, hr⟩ := peerRun_pending_until_ready tr₂ (onCall (peerRun s tr₁) c) c
        hc2 h2p h2a
      obtain ⟨ha, hb, hcmem⟩ := hr m hfr
      exact ⟨hb, ha, hcmem⟩
    · intro hfr
      rw [hrun tr₂]
      obtain ⟨hw, -⟩ := peerRun_pending_until_ready tr₂ (onCall (peerRun s tr₁) c) c
        hc2 h2p h2a
      exact ⟨(hw hfr).2, (hw hfr).1⟩

/-- Instantiation of claim C4: starting from the freshly mounted component
state, a call "a" arrives before the camera is ready and one ready event
follows. -/
theorem stream_session_calls_witness :
    countPending ⟨false, none, none, "Parado", none, false, 0, [], [], []⟩ "a" = 0 ∧
    countAnswered ⟨false, none, none, "Parado", none, false, 0, [], [], []⟩ "a" = 0 ∧
    PeerEv.call "a" ∉ ([] : List PeerEv) ∧
    PeerEv.call "a" ∉ [PeerEv.ready 5] ∧
    ((∀ m, (peerRun ⟨false, none, none, "Parado", none, false, 0, [], [], []⟩
        []).mediaStream = some m →
      (onCall (peerRun ⟨false, none, none, "Parado", none, false, 0, [], [], []⟩ [])
          "a").answered =
        (peerRun ⟨false, none, none, "Parado", none, false, 0, [], [], []⟩
          []).answered ++ [("a", m)] ∧
      (onCall (peerRun ⟨false, none, none, "Parado", none, false, 0, [], [], []⟩ [])
          "a").pendingCalls =
        (peerRun ⟨false, none, none, "Parado", none, false, 0, [], [], []⟩
          []).pendingCalls ∧
      countAnswered (peerRun ⟨false, none, none, "Parado", none, false, 0, [], [], []⟩
        ([] ++ PeerEv.call "a" :: [PeerEv.ready 5])) "a" = 1) ∧
    ((peerRun ⟨false, none, none, "Parado", none, false, 0, [], [], []⟩
        []).mediaStream = none →
      (onCall (peerRun ⟨false, none, none, "Parado", none, false, 0, [], [], []⟩ [])
          "a").pendingCalls =
        (peerRun ⟨false, none, none, "Parado", none, false, 0, [], [], []⟩
          []).pendingCalls ++ ["a"] ∧
      countAnswered (onCall (peerRun ⟨false, none, none, "Parado", none, false, 0,
        [], [], []⟩ []) "a") "a" = 0 ∧
      (∀ u v, [PeerEv.ready 5] = u ++ v → hasReady u = false →
        countAnswered (peerRun ⟨false, none, none, "Parado", none, false, 0, [], [], []⟩
          ([] ++ PeerEv.call "a" :: u)) "a" = 0 ∧
        countPending (peerRun ⟨false, none, none, "Parado", none, false, 0, [], [], []⟩
          ([] ++ PeerEv.call "a" :: u)) "a" = 1) ∧
      (∀ m, firstReady [PeerEv.ready 5] = some m →
        countAnswered (peerRun ⟨false, none, none, "Parado", none, false, 0, [], [], []⟩
          ([] ++ PeerEv.call "a" :: [PeerEv.ready 5])) "a" = 1 ∧
        countPending (peerRun ⟨false, none, none, "Parado", none, false, 0, [], [], []⟩
          ([] ++ PeerEv.call "a" :: [PeerEv.ready 5])) "a" = 0 ∧
        ("a", m) ∈ (peerRun ⟨false, none, none, "Parado", none, false, 0, [], [], []⟩
          ([] ++ PeerEv.call "a" :: [PeerEv.ready 5])).answered) ∧
      (firstReady [PeerEv.ready 5] = none →
        countAnswered (peerRun ⟨false, none, none, "Parado", none, false, 0, [], [], []⟩
          ([] ++ PeerEv.call "a" :: [PeerEv.ready 5])) "a" = 0 ∧
        countPending (peerRun ⟨false, none, none, "Parado", none, false, 0, [], [], []⟩
          ([] ++ PeerEv.call "a" :: [PeerEv.ready 5])) "a" = 1)) ∧
    (∀ (t : CamState) (m : Nat), (setupCamera t (.success m)).pendingCalls = [])) :=
  ⟨rfl, rfl, by simp, by simp,
    stream_session_calls ⟨false, none, none, "Parado", none, false, 0, [], [], []⟩
      [] [PeerEv.ready 5] "a" rfl rfl (by simp) (by simp)⟩
